import Mathlib

/-!
Verification of the PawHaven adoption-application workflow.

The definitions below are a shallow embedding of the workflow views of the
repository (`shelter/views/admin_views.py` and `shelter/views/auth_views.py`):
`admin_update_application_status` (the spec calls it `set_status`),
`admin_update_application_notes` (`set_notes`) and `adoption_application`
(`submit`).  Statuses are kept as strings, exactly as the Python code handles
them; timestamps are abstracted to natural numbers; the relational store is a
record of lists together with the auto-increment primary-key counter the
database provides.
-/

namespace PawHaven

/-- HTTP request method as far as the views distinguish it: `post` triggers the
mutating branch, `get` stands for every non-POST method (the views only test
`request.method == 'POST'`). -/
inductive Method
  | get
  | post
deriving DecidableEq, Repr

/-- A pet record.  The descriptive fields follow §3 of the spec (the field
called `type` in the source is renamed `species`, `type` being a Lean keyword);
only `id` and `status` are inspected by the workflow, the rest witness frame
conditions. -/
structure Pet where
  id : Nat
  slug : String
  name : String
  species : String
  breed : String
  status : String
  featured : Bool
deriving DecidableEq, Repr

/-- An adoption-application record, with the fields created by the
`adoption_application` view (`auth_views.py` lines 77-94) plus the
workflow fields `status`, `submitted_at`, `reviewed_at`, `notes`.
The foreign key `pet` is stored as the referenced id, `user` as an optional
user id (nullable). -/
structure AdoptionApplication where
  id : Nat
  user : Option Nat
  first_name : String
  last_name : String
  email : String
  phone : String
  address : String
  petId : Nat
  housing_type : String
  own_or_rent : String
  landlord_approval : Bool
  household_adults : Nat
  household_children : Nat
  has_other_pets : Bool
  other_pets_description : String
  previous_pet_experience : String
  reason_for_adoption : String
  status : String
  submitted_at : Nat
  reviewed_at : Option Nat
  notes : String
deriving DecidableEq, Repr

/-- The applicant-supplied POST fields of the submission form. -/
structure ApplicantFields where
  first_name : String
  last_name : String
  email : String
  phone : String
  address : String
  housing_type : String
  own_or_rent : String
  landlord_approval : Bool
  household_adults : Nat
  household_children : Nat
  has_other_pets : Bool
  other_pets_description : String
  previous_pet_experience : String
  reason_for_adoption : String
deriving DecidableEq, Repr

/-- The persistent store: the two tables the workflow touches, plus the
auto-increment primary-key counter the database maintains for
applications. -/
structure Store where
  pets : List Pet
  applications : List AdoptionApplication
  next_app_id : Nat
deriving DecidableEq, Repr

/-- The four recognized application statuses, as listed in
`admin_views.py` line 95. -/
def validStatuses : List String := ["pending", "approved", "rejected", "completed"]

/-- Look up an application row by primary key
(`get_object_or_404(AdoptionApplication, id=application_id)`). -/
def findApplication (l : List AdoptionApplication) (i : Nat) : Option AdoptionApplication :=
  l.find? (fun a => a.id == i)

/-- Saving an application row: the row whose primary key is `i` is replaced by
its updated version, every other row is untouched. -/
def updApp (i : Nat) (g : AdoptionApplication → AdoptionApplication)
    (l : List AdoptionApplication) : List AdoptionApplication :=
  l.map (fun a => if a.id == i then g a else a)

/-- Saving a pet row after assigning `pet.status = st`. -/
def setPetStatus (pets : List Pet) (i : Nat) (st : String) : List Pet :=
  pets.map (fun p => if p.id == i then { p with status := st } else p)

/-- The lookup `Pet.objects.filter(pk=i, status='available').first()` used by
the submission view. -/
def findAvailablePet (pets : List Pet) (i : Nat) : Option Pet :=
  (pets.filter (fun p => p.id == i && p.status == "available")).head?

/-- Modelled from the spec: `shelter/models.py` is not among the provided
sources, so the field defaults that `AdoptionApplication.objects.create`
fills in come from §3/§4.1 of the spec — `status = "pending"` is the initial
state, `submitted_at` is set at creation time, `reviewed_at` starts null,
`notes` starts empty, and the primary key is assigned by the store's
auto-increment counter.  The explicitly passed fields are exactly the ones the
view passes (`auth_views.py` lines 77-94). -/
def mkApplication (user : Option Nat) (fields : ApplicantFields) (petId : Nat)
    (now : Nat) (newId : Nat) : AdoptionApplication :=
  { id := newId
    user := user
    first_name := fields.first_name
    last_name := fields.last_name
    email := fields.email
    phone := fields.phone
    address := fields.address
    petId := petId
    housing_type := fields.housing_type
    own_or_rent := fields.own_or_rent
    landlord_approval := fields.landlord_approval
    household_adults := fields.household_adults
    household_children := fields.household_children
    has_other_pets := fields.has_other_pets
    other_pets_description := fields.other_pets_description
    previous_pet_experience := fields.previous_pet_experience
    reason_for_adoption := fields.reason_for_adoption
    status := "pending"
    submitted_at := now
    reviewed_at := none
    notes := "" }

/-- Outcome surfaced to the caller by the two admin views.  Every constructor
except `notFound` ends in the view issuing a normal redirect; `updated`
corresponds to `messages.success`, `invalidStatus` to
`messages.error('Invalid status')`, `redirectOnly` to the non-POST path that
adds no message, and `notFound` to the Http404 of `get_object_or_404`. -/
inductive StatusOutcome
  | updated
  | invalidStatus
  | notFound
  | redirectOnly
deriving DecidableEq, Repr

/-- Outcome surfaced by the submission view.  `redirectLogin` is the
`@login_required` decorator bouncing an unauthenticated request to the login
page; `petNotFound` is the error message "Pet not found or no longer
available." with a redirect to the pet list; `invalidPet` is the error message
"Please select a valid pet." with a redirect back to the form; `created i` is
the success message after creating application `i`; `renderForm` is the
non-POST path rendering the form. -/
inductive SubmitOutcome
  | redirectLogin
  | petNotFound
  | invalidPet
  | created (appId : Nat)
  | renderForm
deriving DecidableEq, Repr

/-- Both error outcomes of the submission view reject the request because no
available pet with the requested id exists: they are the spec's
`PetUnavailable` condition. -/
def SubmitOutcome.petUnavailable : SubmitOutcome → Bool
  | .petNotFound => true
  | .invalidPet => true
  | _ => false

/-- Shallow embedding of `admin_update_application_status`
(`admin_views.py` lines 89-119).  On POST, the application row is fetched by
id; a recognized status is written together with `reviewed_at = now`, and the
cascade updates the referenced pet (`adopted` when completing, `available`
when reverting a completed application); an unrecognized status only adds an
error message.  On every path except the 404 the view returns a redirect. -/
def admin_update_application_status (s : Store) (method : Method)
    (application_id : Nat) (new_status : String) (now : Nat) :
    Store × StatusOutcome :=
  if method = .post then
    match findApplication s.applications application_id with
    | none => (s, .notFound)
    | some application =>
      if new_status ∈ validStatuses then
        let old_status := application.status
        let apps := updApp application_id
          (fun a => { a with status := new_status, reviewed_at := some now })
          s.applications
        let pets :=
          if new_status = "completed" then
            setPetStatus s.pets application.petId "adopted"
          else if old_status = "completed" ∧ new_status ≠ "completed" then
            setPetStatus s.pets application.petId "available"
          else
            s.pets
        ({ s with applications := apps, pets := pets }, .updated)
      else
        (s, .invalidStatus)
  else
    (s, .redirectOnly)

/-- Shallow embedding of `admin_update_application_notes`
(`admin_views.py` lines 122-136): on POST, set `notes` and refresh
`reviewed_at`; nothing else is touched. -/
def admin_update_application_notes (s : Store) (method : Method)
    (application_id : Nat) (notes : String) (now : Nat) :
    Store × StatusOutcome :=
  if method = .post then
    match findApplication s.applications application_id with
    | none => (s, .notFound)
    | some _ =>
      let apps := updApp application_id
        (fun a => { a with notes := notes, reviewed_at := some now })
        s.applications
      ({ s with applications := apps }, .updated)
  else
    (s, .redirectOnly)

/-- Shallow embedding of `adoption_application` (`auth_views.py` lines 52-108).
`requestUser` is the authenticated user id, `none` when the request is
anonymous: the `@login_required(login_url='site_login')` decorator on line 52
redirects an anonymous request to the login page before the body runs.
`pet_id` is the optional URL parameter, `post_pet_id` the optional `pet_id`
POST field consulted when the URL carries none.  Both lookups require
`status == "available"`; with no valid pet the request is rejected without
creating anything.  On success the new row takes the store's next primary
key. -/
def adoption_application (s : Store) (requestUser : Option Nat) (method : Method)
    (pet_id : Option Nat) (post_pet_id : Option Nat) (fields : ApplicantFields)
    (now : Nat) : Store × SubmitOutcome :=
  match requestUser with
  | none => (s, .redirectLogin)
  | some uid =>
    let pet0 : Option Pet :=
      match pet_id with
      | some pid => findAvailablePet s.pets pid
      | none => none
    if pet_id.isSome ∧ pet0.isNone then
      (s, .petNotFound)
    else if method = .post then
      let user : Option Nat := if (some uid : Option Nat).isSome then some uid else none
      let pet : Option Pet :=
        match pet0 with
        | some p => some p
        | none =>
          match post_pet_id with
          | some ppid => findAvailablePet s.pets ppid
          | none => none
      match pet with
      | none => (s, .invalidPet)
      | some pet =>
        let application := mkApplication user fields pet.id now s.next_app_id
        ({ s with
            applications := s.applications ++ [application],
            next_app_id := s.next_app_id + 1 }, .created application.id)
    else
      (s, .renderForm)

/-- One workflow operation, as claim C1 quantifies over them: a POST to the
status view, a POST to the notes view, or a POST of the submission form. -/
inductive Op
  | opSetStatus (application_id : Nat) (new_status : String) (now : Nat)
  | opSetNotes (application_id : Nat) (text : String) (now : Nat)
  | opSubmit (user : Option Nat) (pet_id : Option Nat) (post_pet_id : Option Nat)
      (fields : ApplicantFields) (now : Nat)
deriving Repr

/-- The store reached by executing one operation. -/
def applyOp (s : Store) : Op → Store
  | .opSetStatus i st t => (admin_update_application_status s .post i st t).1
  | .opSetNotes i tx t => (admin_update_application_notes s .post i tx t).1
  | .opSubmit u p pp f t => (adoption_application s u .post p pp f t).1

/-- The store reached by executing a sequence of operations. -/
def run (s : Store) : List Op → Store
  | [] => s
  | op :: ops => run (applyOp s op) ops

/-- The invariant of spec §8 property 1: a pet is `adopted` exactly when some
application referencing it is currently `completed`. -/
def petAdoptedIffCompleted (s : Store) : Prop :=
  ∀ p ∈ s.pets, (p.status = "adopted" ↔
    ∃ a ∈ s.applications, a.petId = p.id ∧ a.status = "completed")

/-- The forward half of the invariant: an `adopted` pet has at least one
`completed` application referencing it. -/
def petAdoptedHasCompleted (s : Store) : Prop :=
  ∀ p ∈ s.pets, p.status = "adopted" →
    ∃ a ∈ s.applications, a.petId = p.id ∧ a.status = "completed"

/-- Primary-key discipline the relational store guarantees for the
applications table: ids are pairwise distinct and below the auto-increment
counter. -/
def storeWf (s : Store) : Prop :=
  (∀ a ∈ s.applications, a.id < s.next_app_id) ∧
    s.applications.Pairwise (fun a b => a.id ≠ b.id)

end PawHaven

namespace PawHaven

/-! Helper lemmas shared by the claim theorems. -/

/-- In a table whose keys are pairwise distinct, two rows with the same key
are the same row. -/
theorem pairwise_key_inj {α : Type} (f : α → Nat) (l : List α)
    (hl : l.Pairwise (fun x y => f x ≠ f y)) :
    ∀ a ∈ l, ∀ b ∈ l, f a = f b → a = b := by
  intro a ha b hb hab
  by_cases heq : a = b
  · exact heq
  · exact absurd hab (hl.forall (fun x y h => h.symm) ha hb heq)

/-- Looking up a row after an update of the same key returns the updated row. -/
theorem findApplication_updApp (i : Nat) (g : AdoptionApplication → AdoptionApplication)
    (hg : ∀ a, (g a).id = a.id) (l : List AdoptionApplication) :
    findApplication (updApp i g l) i = (findApplication l i).map g := by
  induction l with
  | nil => rfl
  | cons a l ih =>
    by_cases h : a.id = i
    · have hb : (a.id == i) = true := beq_iff_eq.mpr h
      have hgb : ((g a).id == i) = true := beq_iff_eq.mpr (by rw [hg a]; exact h)
      simp only [findApplication, updApp, List.map_cons, hb, if_true]
      rw [List.find?_cons_of_pos (p := fun b : AdoptionApplication => b.id == i) _ hgb,
        List.find?_cons_of_pos (p := fun b : AdoptionApplication => b.id == i) _ hb]
      rfl
    · have hb : (a.id == i) = false := by simp [h]
      simp only [findApplication, updApp, List.map_cons, hb, Bool.false_eq_true, if_false]
      rw [List.find?_cons_of_neg (p := fun b : AdoptionApplication => b.id == i) _ (by simp [hb]),
        List.find?_cons_of_neg (p := fun b : AdoptionApplication => b.id == i) _ (by simp [hb])]
      exact ih

/-- The save of a row keeps every row of the table in the table, updated when
its key matches and untouched otherwise. -/
theorem updFn_mem (i : Nat) (g : AdoptionApplication → AdoptionApplication)
    (l : List AdoptionApplication) (b : AdoptionApplication) (hb : b ∈ l) :
    (if b.id == i then g b else b) ∈ updApp i g l :=
  List.mem_map_of_mem _ hb

/-- The status view on a missing application id raises the 404 and changes
nothing. -/
theorem status_view_notFound (s : Store) (i : Nat) (st : String) (t : Nat)
    (ha : findApplication s.applications i = none) :
    admin_update_application_status s .post i st t = (s, .notFound) := by
  unfold admin_update_application_status
  simp [ha]

/-- The status view on an unrecognized status value reports the error and
changes nothing. -/
theorem status_view_invalid (s : Store) (i : Nat) (st : String) (t : Nat)
    (a : AdoptionApplication) (ha : findApplication s.applications i = some a)
    (hv : st ∉ validStatuses) :
    admin_update_application_status s .post i st t = (s, .invalidStatus) := by
  unfold admin_update_application_status
  simp [ha, hv]

/-- Completing an application marks it completed, stamps `reviewed_at`, and
cascades `adopted` onto its pet. -/
theorem status_view_completed (s : Store) (i : Nat) (t : Nat)
    (a : AdoptionApplication) (ha : findApplication s.applications i = some a) :
    admin_update_application_status s .post i "completed" t =
      ({ s with applications := updApp i (fun b => { b with status := "completed", reviewed_at := some t }) s.applications, pets := setPetStatus s.pets a.petId "adopted" }, .updated) := by
  unfold admin_update_application_status
  simp [ha, validStatuses]

/-- Moving a completed application to another recognized status cascades
`available` onto its pet. -/
theorem status_view_revert (s : Store) (i : Nat) (st : String) (t : Nat)
    (a : AdoptionApplication) (ha : findApplication s.applications i = some a)
    (hv : st ∈ validStatuses) (hc : st ≠ "completed") (hold : a.status = "completed") :
    admin_update_application_status s .post i st t =
      ({ s with applications := updApp i (fun b => { b with status := st, reviewed_at := some t }) s.applications, pets := setPetStatus s.pets a.petId "available" }, .updated) := by
  unfold admin_update_application_status
  simp [ha, hv, hc, hold]

/-- A recognized transition that neither completes nor reverts a completed
application leaves the pets table untouched. -/
theorem status_view_frame (s : Store) (i : Nat) (st : String) (t : Nat)
    (a : AdoptionApplication) (ha : findApplication s.applications i = some a)
    (hv : st ∈ validStatuses) (hc : st ≠ "completed") (hold : a.status ≠ "completed") :
    admin_update_application_status s .post i st t =
      ({ s with applications := updApp i (fun b => { b with status := st, reviewed_at := some t }) s.applications }, .updated) := by
  unfold admin_update_application_status
  simp [ha, hv, hc, hold]

/-- The notes view on a missing application id raises the 404 and changes
nothing. -/
theorem notes_view_notFound (s : Store) (i : Nat) (tx : String) (t : Nat)
    (ha : findApplication s.applications i = none) :
    admin_update_application_notes s .post i tx t = (s, .notFound) := by
  unfold admin_update_application_notes
  simp [ha]

/-- The notes view on an existing application writes `notes` and
`reviewed_at` of that application and nothing else. -/
theorem notes_view_post (s : Store) (i : Nat) (tx : String) (t : Nat)
    (a : AdoptionApplication) (ha : findApplication s.applications i = some a) :
    admin_update_application_notes s .post i tx t =
      ({ s with applications := updApp i (fun b => { b with notes := tx, reviewed_at := some t }) s.applications }, .updated) := by
  unfold admin_update_application_notes
  simp [ha]

end PawHaven

namespace PawHaven

/-- Two saves of the same row compose into one save. -/
theorem updApp_updApp (i : Nat) (g2 g1 : AdoptionApplication → AdoptionApplication)
    (hg1 : ∀ a, (g1 a).id = a.id) (l : List AdoptionApplication) :
    updApp i g2 (updApp i g1 l) = updApp i (fun a => g2 (g1 a)) l := by
  induction l with
  | nil => rfl
  | cons a l ih =>
    show (if (if a.id == i then g1 a else a).id == i then g2 (if a.id == i then g1 a else a) else (if a.id == i then g1 a else a)) :: updApp i g2 (updApp i g1 l) = (if a.id == i then g2 (g1 a) else a) :: updApp i (fun a => g2 (g1 a)) l
    rw [ih]
    congr 1
    by_cases h : a.id = i
    · simp [beq_iff_eq.mpr h, beq_iff_eq.mpr ((hg1 a).trans h)]
    · simp [h]

/-- Saves with pointwise equal row updates produce the same table. -/
theorem updApp_congr (i : Nat) (g g2 : AdoptionApplication → AdoptionApplication)
    (h : ∀ a, g a = g2 a) (l : List AdoptionApplication) :
    updApp i g l = updApp i g2 l := by
  unfold updApp
  apply List.map_congr_left
  intro a _
  by_cases hid : a.id = i <;> simp [hid, h]

/-- Writing status and review stamp twice to the same row amounts to the
second write alone. -/
theorem updApp_status_twice (i : Nat) (s1 s2 : String) (t1 t2 : Nat)
    (l : List AdoptionApplication) :
    updApp i (fun b => { b with status := s2, reviewed_at := some t2 })
      (updApp i (fun b => { b with status := s1, reviewed_at := some t1 }) l) =
    updApp i (fun b => { b with status := s2, reviewed_at := some t2 }) l := by
  rw [updApp_updApp i (fun b => { b with status := s2, reviewed_at := some t2 })
    (fun b => { b with status := s1, reviewed_at := some t1 }) (fun a => rfl) l]

/-- Writing a pet status twice amounts to the second write alone. -/
theorem setPetStatus_twice (pets : List Pet) (i : Nat) (s1 s2 : String) :
    setPetStatus (setPetStatus pets i s1) i s2 = setPetStatus pets i s2 := by
  unfold setPetStatus
  rw [List.map_map]
  apply List.map_congr_left
  intro p _
  by_cases h : p.id = i
  · simp [h]
  · simp [h]

/-- The submission view either leaves the store untouched (and does not report
a creation) or appends exactly one new application built by `mkApplication`
from the store's next primary key. -/
theorem submit_cases (s : Store) (u : Option Nat) (m : Method) (pid ppid : Option Nat)
    (f : ApplicantFields) (t : Nat) :
    ((adoption_application s u m pid ppid f t).1 = s ∧
      ∀ j, (adoption_application s u m pid ppid f t).2 ≠ .created j) ∨
    ∃ petId, adoption_application s u m pid ppid f t =
      ({ s with applications := s.applications ++ [mkApplication u f petId t s.next_app_id], next_app_id := s.next_app_id + 1 }, .created s.next_app_id) := by
  unfold adoption_application
  cases u with
  | none => exact Or.inl ⟨rfl, fun j => by simp⟩
  | some uid =>
    dsimp only
    split
    · exact Or.inl ⟨rfl, fun j => by simp⟩
    · split
      · split
        · exact Or.inl ⟨rfl, fun j => by simp⟩
        · rename_i pet hpet
          exact Or.inr ⟨pet.id, rfl⟩
      · exact Or.inl ⟨rfl, fun j => by simp⟩

/-- When the submission view reports a creation, the new store is the old one
with exactly one new application appended, whose id is the store's next
primary key. -/
theorem submit_created_shape (s : Store) (u : Option Nat) (m : Method)
    (pid ppid : Option Nat) (f : ApplicantFields) (t : Nat) (i : Nat)
    (h : (adoption_application s u m pid ppid f t).2 = .created i) :
    i = s.next_app_id ∧ ∃ petId, adoption_application s u m pid ppid f t =
      ({ s with applications := s.applications ++ [mkApplication u f petId t s.next_app_id], next_app_id := s.next_app_id + 1 }, .created s.next_app_id) := by
  rcases submit_cases s u m pid ppid f t with ⟨h1, h2⟩ | ⟨petId, h2⟩
  · exact absurd h (h2 i)
  · rw [h2] at h
    simp at h
    exact ⟨h.symm, petId, h2⟩

end PawHaven

namespace PawHaven

/-- One step of `set_status` preserves the forward invariant: an adopted pet
keeps a completed application referencing it.  Primary-key discipline is
needed: the save by id must hit only the transitioned application. -/
theorem fwd_setStatus (s : Store) (i : Nat) (st : String) (t : Nat)
    (hwf : storeWf s) (hinv : petAdoptedHasCompleted s) :
    petAdoptedHasCompleted (admin_update_application_status s .post i st t).1 := by
  cases ha : findApplication s.applications i with
  | none => rw [status_view_notFound s i st t ha]; exact hinv
  | some a =>
    by_cases hv : st ∈ validStatuses
    case neg => rw [status_view_invalid s i st t a ha hv]; exact hinv
    case pos =>
    have haMem : a ∈ s.applications := List.mem_of_find?_eq_some ha
    have haId : a.id = i := by
      have := List.find?_some ha
      simpa using this
    by_cases hc : st = "completed"
    · subst hc
      rw [status_view_completed s i t a ha]
      intro p hp hpad
      rcases List.mem_map.mp hp with ⟨q, hq, hqp⟩
      by_cases hqid : q.id = a.petId
      · refine ⟨{ a with status := "completed", reviewed_at := some t }, ?_, ?_, rfl⟩
        · have := updFn_mem i (fun b => { b with status := "completed", reviewed_at := some t }) s.applications a haMem
          simpa [beq_iff_eq.mpr haId] using this
        · have hpq : p = { q with status := "adopted" } := by
            rw [← hqp]; simp [beq_iff_eq.mpr hqid]
          simp [hpq, hqid]
      · have hpq : p = q := by rw [← hqp]; simp [hqid]
        subst hpq
        rcases hinv p hq hpad with ⟨b0, hb0, hb0pet, hb0st⟩
        refine ⟨if b0.id == i then { b0 with status := "completed", reviewed_at := some t } else b0, updFn_mem i _ s.applications b0 hb0, ?_, ?_⟩
        · by_cases h0 : b0.id = i <;> simp [h0, hb0pet]
        · by_cases h0 : b0.id = i <;> simp [h0, hb0st]
    · by_cases hold : a.status = "completed"
      · rw [status_view_revert s i st t a ha hv hc hold]
        intro p hp hpad
        rcases List.mem_map.mp hp with ⟨q, hq, hqp⟩
        by_cases hqid : q.id = a.petId
        · have hpq : p = { q with status := "available" } := by
            rw [← hqp]; simp [beq_iff_eq.mpr hqid]
          rw [hpq] at hpad
          simp at hpad
        · have hpq : p = q := by rw [← hqp]; simp [hqid]
          subst hpq
          rcases hinv p hq hpad with ⟨b0, hb0, hb0pet, hb0st⟩
          have hb0id : b0.id ≠ i := by
            intro h0
            have hba : b0 = a := pairwise_key_inj (fun x => x.id) s.applications hwf.2 b0 hb0 a haMem (h0.trans haId.symm)
            rw [hba] at hb0pet
            exact hqid hb0pet.symm
          refine ⟨b0, ?_, hb0pet, hb0st⟩
          have := updFn_mem i (fun b => { b with status := st, reviewed_at := some t }) s.applications b0 hb0
          simpa [hb0id] using this
      · rw [status_view_frame s i st t a ha hv hc hold]
        intro p hp hpad
        rcases hinv p hp hpad with ⟨b0, hb0, hb0pet, hb0st⟩
        have hb0id : b0.id ≠ i := by
          intro h0
          have hba : b0 = a := pairwise_key_inj (fun x => x.id) s.applications hwf.2 b0 hb0 a haMem (h0.trans haId.symm)
          exact hold (hba ▸ hb0st)
        refine ⟨b0, ?_, hb0pet, hb0st⟩
        have := updFn_mem i (fun b => { b with status := st, reviewed_at := some t }) s.applications b0 hb0
        simpa [hb0id] using this

/-- One step of `set_notes` preserves the forward invariant: it changes no
status and no pet. -/
theorem fwd_setNotes (s : Store) (i : Nat) (tx : String) (t : Nat)
    (hinv : petAdoptedHasCompleted s) :
    petAdoptedHasCompleted (admin_update_application_notes s .post i tx t).1 := by
  cases ha : findApplication s.applications i with
  | none => rw [notes_view_notFound s i tx t ha]; exact hinv
  | some a =>
    rw [notes_view_post s i tx t a ha]
    intro p hp hpad
    rcases hinv p hp hpad with ⟨b0, hb0, hb0pet, hb0st⟩
    refine ⟨if b0.id == i then { b0 with notes := tx, reviewed_at := some t } else b0, updFn_mem i _ s.applications b0 hb0, ?_, ?_⟩
    · by_cases h0 : b0.id = i <;> simp [h0, hb0pet]
    · by_cases h0 : b0.id = i <;> simp [h0, hb0st]

/-- One step of `submit` preserves the forward invariant: pets are untouched
and the new application only adds to the table. -/
theorem fwd_submit (s : Store) (u : Option Nat) (pid ppid : Option Nat)
    (f : ApplicantFields) (t : Nat) (hinv : petAdoptedHasCompleted s) :
    petAdoptedHasCompleted (adoption_application s u .post pid ppid f t).1 := by
  rcases submit_cases s u .post pid ppid f t with ⟨h, _⟩ | ⟨petId, h⟩
  · rw [h]; exact hinv
  · rw [h]
    intro p hp hpad
    rcases hinv p hp hpad with ⟨b0, hb0, hb0pet, hb0st⟩
    exact ⟨b0, List.mem_append_left _ hb0, hb0pet, hb0st⟩

/-- A save by id preserves primary-key discipline. -/
theorem wf_updApp (s : Store) (g : AdoptionApplication → AdoptionApplication)
    (i : Nat) (hg : ∀ a, (g a).id = a.id) (hwf : storeWf s) :
    storeWf { s with applications := updApp i g s.applications } := by
  constructor
  · intro a ha
    rcases List.mem_map.mp ha with ⟨b, hb, hba⟩
    have : a.id = b.id := by
      rw [← hba]; by_cases h : b.id = i <;> simp [h, hg]
    rw [this]
    exact hwf.1 b hb
  · refine (List.pairwise_map.mpr (hwf.2.imp ?_))
    intro a b hab
    have ha2 : (if a.id == i then g a else a).id = a.id := by
      by_cases h : a.id = i <;> simp [h, hg]
    have hb2 : (if b.id == i then g b else b).id = b.id := by
      by_cases h : b.id = i <;> simp [h, hg]
    rw [ha2, hb2]
    exact hab

/-- `set_status` preserves primary-key discipline. -/
theorem wf_setStatus (s : Store) (i : Nat) (st : String) (t : Nat)
    (hwf : storeWf s) :
    storeWf (admin_update_application_status s .post i st t).1 := by
  cases ha : findApplication s.applications i with
  | none => rw [status_view_notFound s i st t ha]; exact hwf
  | some a =>
    by_cases hv : st ∈ validStatuses
    case neg => rw [status_view_invalid s i st t a ha hv]; exact hwf
    case pos =>
    by_cases hc : st = "completed"
    · subst hc
      rw [status_view_completed s i t a ha]
      exact wf_updApp { s with pets := setPetStatus s.pets a.petId "adopted" } _ i (fun b => rfl) hwf
    · by_cases hold : a.status = "completed"
      · rw [status_view_revert s i st t a ha hv hc hold]
        exact wf_updApp { s with pets := setPetStatus s.pets a.petId "available" } _ i (fun b => rfl) hwf
      · rw [status_view_frame s i st t a ha hv hc hold]
        exact wf_updApp s _ i (fun b => rfl) hwf

/-- `set_notes` preserves primary-key discipline. -/
theorem wf_setNotes (s : Store) (i : Nat) (tx : String) (t : Nat)
    (hwf : storeWf s) :
    storeWf (admin_update_application_notes s .post i tx t).1 := by
  cases ha : findApplication s.applications i with
  | none => rw [notes_view_notFound s i tx t ha]; exact hwf
  | some a =>
    rw [notes_view_post s i tx t a ha]
    exact wf_updApp s _ i (fun b => rfl) hwf

/-- `submit` preserves primary-key discipline: the appended row takes the
fresh auto-increment id. -/
theorem wf_submit (s : Store) (u : Option Nat) (pid ppid : Option Nat)
    (f : ApplicantFields) (t : Nat) (hwf : storeWf s) :
    storeWf (adoption_application s u .post pid ppid f t).1 := by
  rcases submit_cases s u .post pid ppid f t with ⟨h, _⟩ | ⟨petId, h⟩
  · rw [h]; exact hwf
  · rw [h]
    constructor
    · intro a ha
      rcases List.mem_append.mp ha with hb | hb
      · exact Nat.lt_succ_of_lt (hwf.1 a hb)
      · rcases List.mem_singleton.mp hb with rfl
        exact Nat.lt_succ_self _
    · rw [List.pairwise_append]
      refine ⟨hwf.2, List.pairwise_singleton _ _, ?_⟩
      intro a ha b hb
      rcases List.mem_singleton.mp hb with rfl
      exact Nat.ne_of_lt (hwf.1 a ha)

/-- Every operation preserves primary-key discipline. -/
theorem wf_applyOp (s : Store) (op : Op) (hwf : storeWf s) : storeWf (applyOp s op) := by
  cases op with
  | opSetStatus i st t => exact wf_setStatus s i st t hwf
  | opSetNotes i tx t => exact wf_setNotes s i tx t hwf
  | opSubmit u p pp f t => exact wf_submit s u p pp f t hwf

/-- Every operation preserves the forward invariant. -/
theorem fwd_applyOp (s : Store) (op : Op) (hwf : storeWf s)
    (hinv : petAdoptedHasCompleted s) : petAdoptedHasCompleted (applyOp s op) := by
  cases op with
  | opSetStatus i st t => exact fwd_setStatus s i st t hwf hinv
  | opSetNotes i tx t => exact fwd_setNotes s i tx t hinv
  | opSubmit u p pp f t => exact fwd_submit s u p pp f t hinv

/-- The forward invariant holds in every reachable state. -/
theorem fwd_run (s : Store) (ops : List Op) (hwf : storeWf s)
    (hinv : petAdoptedHasCompleted s) : petAdoptedHasCompleted (run s ops) := by
  induction ops generalizing s with
  | nil => exact hinv
  | cons op ops ih => exact ih (applyOp s op) (wf_applyOp s op hwf) (fwd_applyOp s op hwf hinv)

end PawHaven

namespace PawHaven

/-- When some pet row carries the requested id but is not `available`, the
available-pet lookup comes back empty (primary-key discipline on pets makes
that row the only candidate). -/
theorem findAvailablePet_eq_none (pets : List Pet) (pid : Nat) (p : Pet)
    (hp : p ∈ pets) (hid : p.id = pid) (hna : p.status ≠ "available")
    (hu : pets.Pairwise (fun x y => x.id ≠ y.id)) :
    findAvailablePet pets pid = none := by
  unfold findAvailablePet
  have hnil : pets.filter (fun q => q.id == pid && q.status == "available") = [] := by
    rw [List.filter_eq_nil_iff]
    intro q hq hqtest
    rcases Bool.and_eq_true .. |>.mp hqtest with ⟨hq1, hq2⟩
    have hqid : q.id = pid := beq_iff_eq.mp hq1
    have hqp : q = p := pairwise_key_inj (fun x => x.id) pets hu q hq p hp (hqid.trans hid.symm)
    rw [hqp] at hq2
    exact hna (beq_iff_eq.mp hq2)
  rw [hnil]
  rfl

/-- A URL-designated pet that fails the available-pet lookup makes the
submission view bail out with the pet-not-found error, untouched store. -/
theorem submit_view_petNotFound (s : Store) (uid : Nat) (pid : Nat)
    (ppid : Option Nat) (f : ApplicantFields) (t : Nat) (m : Method)
    (h : findAvailablePet s.pets pid = none) :
    adoption_application s (some uid) m (some pid) ppid f t = (s, .petNotFound) := by
  unfold adoption_application
  simp [h]

/-- A POST-designated pet that fails the available-pet lookup makes the
submission view bail out with the invalid-pet error, untouched store. -/
theorem submit_view_invalidPet (s : Store) (uid : Nat) (pid : Nat)
    (f : ApplicantFields) (t : Nat)
    (h : findAvailablePet s.pets pid = none) :
    adoption_application s (some uid) .post none (some pid) f t = (s, .invalidPet) := by
  unfold adoption_application
  simp [h]

end PawHaven

namespace PawHaven

/-! Concrete sample data used by witnesses and counterexamples. -/

/-- Sample pet Luna, available. -/
abbrev lunaPet : Pet :=
  { id := 1
    slug := "luna"
    name := "Luna"
    species := "dog"
    breed := "husky"
    status := "available"
    featured := false }

/-- Sample pet Rex, already adopted (not available). -/
abbrev rexPet : Pet :=
  { id := 2
    slug := "rex"
    name := "Rex"
    species := "dog"
    breed := "beagle"
    status := "adopted"
    featured := false }

/-- Sample pending application of applicant A for Luna. -/
abbrev appOne : AdoptionApplication :=
  { id := 1
    user := none
    first_name := "Ana"
    last_name := "Pop"
    email := "ana@example.com"
    phone := "555"
    address := "Street 1"
    petId := 1
    housing_type := "house"
    own_or_rent := "own"
    landlord_approval := false
    household_adults := 2
    household_children := 0
    has_other_pets := false
    other_pets_description := ""
    previous_pet_experience := "some"
    reason_for_adoption := "love"
    status := "pending"
    submitted_at := 0
    reviewed_at := none
    notes := "" }

/-- Sample pending application of applicant B for Luna. -/
abbrev appTwo : AdoptionApplication := { appOne with id := 2, first_name := "Bogdan" }

/-- Sample store: Luna available with two pending applications. -/
abbrev sampleStore : Store := { pets := [lunaPet], applications := [appOne, appTwo], next_app_id := 3 }

/-- Sample store with a second, unavailable pet. -/
abbrev sampleStoreTwoPets : Store := { pets := [lunaPet, rexPet], applications := [appOne, appTwo], next_app_id := 3 }

/-- Sample applicant form fields. -/
abbrev sampleFields : ApplicantFields :=
  { first_name := "Carla"
    last_name := "Ionescu"
    email := "carla@example.com"
    phone := "556"
    address := "Street 2"
    housing_type := "apartment"
    own_or_rent := "rent"
    landlord_approval := true
    household_adults := 1
    household_children := 1
    has_other_pets := true
    other_pets_description := "a cat"
    previous_pet_experience := "cats"
    reason_for_adoption := "company" }

/-- Operation sequence completing both of Luna's applications, then rejecting
the first: the second application stays completed while Luna is freed. -/
abbrev doubleCompleteOps : List Op :=
  [.opSetStatus 1 "completed" 1, .opSetStatus 2 "completed" 2, .opSetStatus 1 "rejected" 3]

end PawHaven

namespace PawHaven

/-! Claim theorems. -/

/-- Claim C1, counterexample: the biconditional invariant "a pet is adopted
iff some application referencing it is completed" is not preserved by every
operation sequence.  From a store where it holds (Luna available, two pending
applications), completing both applications and then rejecting the first
leaves Luna `available` while the second application is still `completed`. -/
theorem claim1_counterexample :
    petAdoptedIffCompleted sampleStore ∧
      ¬ petAdoptedIffCompleted (run sampleStore doubleCompleteOps) := by
  constructor
  · unfold petAdoptedIffCompleted
    decide
  · unfold petAdoptedIffCompleted
    decide

/-- Claim C1, amended: for every store with distinct application primary keys
and every sequence of submit, set_status and set_notes operations, the forward
half of the invariant is preserved — whenever a pet's status is `adopted`, at
least one application referencing it currently has status `completed`.  (The
backward half fails: reverting one of two completed applications for the same
pet frees the pet while the sibling stays completed.) -/
theorem claim1_theorem (s : Store) (ops : List Op) (hwf : storeWf s)
    (hinv : petAdoptedHasCompleted s) : petAdoptedHasCompleted (run s ops) :=
  fwd_run s ops hwf hinv

/-- Claim C1, witness: the amended theorem applied to the sample store and the
double-complete sequence. -/
theorem claim1_witness :
    storeWf sampleStore ∧ petAdoptedHasCompleted sampleStore ∧
      petAdoptedHasCompleted (run sampleStore doubleCompleteOps) :=
  ⟨by unfold storeWf; decide, by unfold petAdoptedHasCompleted; decide,
    claim1_theorem sampleStore doubleCompleteOps
      (by unfold storeWf; decide) (by unfold petAdoptedHasCompleted; decide)⟩

/-- Claim C10: invoking the status-update view with a non-POST method changes
no state at all — the store (the application, its pet, every other record) is
returned untouched — and the caller still gets the normal redirect. -/
theorem claim10_theorem (s : Store) (i : Nat) (st : String) (t : Nat) :
    admin_update_application_status s .get i st t = (s, .redirectOnly) := rfl

end PawHaven

namespace PawHaven

/-- The statement of claim C6, formalized: some request with no authenticated
user identity gets an application created for it (with a null user
reference). -/
def anonymousSubmitCreates : Prop :=
  ∃ (s : Store) (pid ppid : Option Nat) (f : ApplicantFields) (t : Nat)
    (a : AdoptionApplication),
      a ∈ (adoption_application s none .post pid ppid f t).1.applications ∧
      a ∉ s.applications ∧ a.user = none

/-- Claim C6, counterexample: no unauthenticated request ever creates an
application — the `login_required` decorator redirects it to the login page
before the view body runs, so the store is returned unchanged. -/
theorem claim6_counterexample : ¬ anonymousSubmitCreates := by
  rintro ⟨s, pid, ppid, f, t, a, hmem, hnot, _⟩
  exact hnot hmem

/-- Claim C6, amended: the submission view does not accept anonymous
submissions.  A request with no authenticated user identity is redirected to
the login page and the store is returned exactly as it was: no application
record (with a null or any user reference) is created.  (The data model keeps
`user` nullable; it is the view's login guard that rules anonymous submissions
out.) -/
theorem claim6_theorem (s : Store) (m : Method) (pid ppid : Option Nat)
    (f : ApplicantFields) (t : Nat) :
    adoption_application s none m pid ppid f t = (s, .redirectLogin) := rfl

/-- Claim C3: a status string outside the four recognized values leaves the
whole store — the application's status, reviewed_at and notes, and its
referenced pet — unchanged, and reports the invalid-status error; the view
returns normally (with a redirect), no exception aborts the request. -/
theorem claim3_theorem (s : Store) (i : Nat) (st : String) (t : Nat)
    (a : AdoptionApplication) (ha : findApplication s.applications i = some a)
    (hv : st ∉ validStatuses) :
    admin_update_application_status s .post i st t = (s, .invalidStatus) :=
  status_view_invalid s i st t a ha hv

/-- Claim C3, witness: updating application 1 of the sample store to the
unrecognized status "archived" reports the error and changes nothing. -/
theorem claim3_witness :
    findApplication sampleStore.applications 1 = some appOne ∧
      "archived" ∉ validStatuses ∧
      admin_update_application_status sampleStore .post 1 "archived" 9 =
        (sampleStore, .invalidStatus) :=
  ⟨by decide, by decide,
    claim3_theorem sampleStore 1 "archived" 9 appOne (by decide) (by decide)⟩

end PawHaven

namespace PawHaven

/-- Claim C2: for an existing application and a recognized target status, the
status view sets the referenced pet to `adopted` exactly when the new status
is `completed`; sets it to `available` when the old status was `completed` and
the new one is not; and in every other case returns the pets table exactly as
it was. -/
theorem claim2_theorem (s : Store) (i : Nat) (st : String) (t : Nat)
    (a : AdoptionApplication) (ha : findApplication s.applications i = some a)
    (hv : st ∈ validStatuses) :
    (st = "completed" →
      (admin_update_application_status s .post i st t).1.pets =
        setPetStatus s.pets a.petId "adopted") ∧
    (a.status = "completed" → st ≠ "completed" →
      (admin_update_application_status s .post i st t).1.pets =
        setPetStatus s.pets a.petId "available") ∧
    (st ≠ "completed" → a.status ≠ "completed" →
      (admin_update_application_status s .post i st t).1.pets = s.pets) := by
  refine ⟨?_, ?_, ?_⟩
  · intro hc
    subst hc
    rw [status_view_completed s i t a ha]
  · intro hold hc
    rw [status_view_revert s i st t a ha hv hc hold]
  · intro hc hold
    rw [status_view_frame s i st t a ha hv hc hold]

/-- Claim C2, witness: completing application 1 of the sample store marks
Luna adopted. -/
theorem claim2_witness :
    findApplication sampleStore.applications 1 = some appOne ∧
      "completed" ∈ validStatuses ∧
      ("completed" = "completed" →
        (admin_update_application_status sampleStore .post 1 "completed" 4).1.pets =
          setPetStatus sampleStore.pets appOne.petId "adopted") :=
  ⟨by decide, by decide,
    (claim2_theorem sampleStore 1 "completed" 4 appOne (by decide) (by decide)).1⟩

/-- Claim C5: completing the same application twice in a row leaves exactly
the state a single completion (at the time of the later call) leaves, for the
application and for the pet: the second call only re-writes the same status
and pet status, refreshing the review stamp. -/
theorem claim5_theorem (s : Store) (i : Nat) (t1 t2 : Nat) :
    (admin_update_application_status
        (admin_update_application_status s .post i "completed" t1).1
        .post i "completed" t2).1 =
      (admin_update_application_status s .post i "completed" t2).1 := by
  cases ha : findApplication s.applications i with
  | none =>
    rw [status_view_notFound s i "completed" t1 ha]
  | some a =>
    have ha2 : findApplication
        (updApp i (fun b => { b with status := "completed", reviewed_at := some t1 })
          s.applications) i =
        some { a with status := "completed", reviewed_at := some t1 } := by
      rw [findApplication_updApp i
        (fun b => { b with status := "completed", reviewed_at := some t1 })
        (fun b => rfl) s.applications, ha]
      rfl
    rw [status_view_completed s i t1 a ha]
    rw [status_view_completed _ i t2 _ ha2]
    rw [status_view_completed s i t2 a ha]
    show ({ s with applications := updApp i (fun b => { b with status := "completed", reviewed_at := some t2 }) (updApp i (fun b => { b with status := "completed", reviewed_at := some t1 }) s.applications), pets := setPetStatus (setPetStatus s.pets a.petId "adopted") a.petId "adopted" } : Store) = { s with applications := updApp i (fun b => { b with status := "completed", reviewed_at := some t2 }) s.applications, pets := setPetStatus s.pets a.petId "adopted" }
    rw [updApp_status_twice, setPetStatus_twice]

end PawHaven

namespace PawHaven

/-- Claim C4: a submission naming a pet that exists but is not `available`
(whichever way the pet is designated, URL parameter or POST field) creates no
application, returns the store unchanged, and surfaces a pet-unavailable
error to the caller. -/
theorem claim4_theorem (s : Store) (uid pid : Nat) (ppid : Option Nat)
    (f : ApplicantFields) (t : Nat) (p : Pet)
    (hp : p ∈ s.pets) (hid : p.id = pid) (hna : p.status ≠ "available")
    (hu : s.pets.Pairwise (fun x y => x.id ≠ y.id)) :
    adoption_application s (some uid) .post (some pid) ppid f t = (s, .petNotFound) ∧
    adoption_application s (some uid) .post none (some pid) f t = (s, .invalidPet) ∧
    SubmitOutcome.petUnavailable .petNotFound = true ∧
    SubmitOutcome.petUnavailable .invalidPet = true := by
  have h := findAvailablePet_eq_none s.pets pid p hp hid hna hu
  exact ⟨submit_view_petNotFound s uid pid ppid f t .post h,
    submit_view_invalidPet s uid pid f t h, rfl, rfl⟩

/-- Claim C4, witness: submitting for Rex (adopted) in the double-pet sample
store is rejected both ways. -/
theorem claim4_witness :
    rexPet ∈ sampleStoreTwoPets.pets ∧ rexPet.id = 2 ∧
      rexPet.status ≠ "available" ∧
      adoption_application sampleStoreTwoPets (some 7) .post (some 2) none sampleFields 5 =
        (sampleStoreTwoPets, .petNotFound) :=
  ⟨by decide, by decide, by decide,
    (claim4_theorem sampleStoreTwoPets 7 2 none sampleFields 5 rexPet
      (by decide) (by decide) (by decide) (by decide)).1⟩

/-- Claim C7: a successful submission leaves the pets table exactly as it was
(in particular the target pet keeps status `available` and every other field)
and only appends one new application, so earlier applications for the same pet
coexist with the new one. -/
theorem claim7_theorem (s : Store) (uid : Nat) (m : Method) (pid ppid : Option Nat)
    (f : ApplicantFields) (t : Nat) (i : Nat)
    (h : (adoption_application s (some uid) m pid ppid f t).2 = .created i) :
    (adoption_application s (some uid) m pid ppid f t).1.pets = s.pets ∧
    ∃ newApp, (adoption_application s (some uid) m pid ppid f t).1.applications =
      s.applications ++ [newApp] := by
  rcases submit_created_shape s (some uid) m pid ppid f t i h with ⟨-, petId, h2⟩
  rw [h2]
  exact ⟨rfl, ⟨mkApplication (some uid) f petId t s.next_app_id, rfl⟩⟩

/-- Claim C7, witness: a successful submission for Luna in the sample store. -/
theorem claim7_witness :
    (adoption_application sampleStore (some 7) .post (some 1) none sampleFields 5).2 =
      .created 3 ∧
    (adoption_application sampleStore (some 7) .post (some 1) none sampleFields 5).1.pets =
      sampleStore.pets ∧
    ∃ newApp,
      (adoption_application sampleStore (some 7) .post (some 1) none sampleFields 5).1.applications =
        sampleStore.applications ++ [newApp] :=
  ⟨by decide,
    (claim7_theorem sampleStore 7 .post (some 1) none sampleFields 5 3 (by decide)).1,
    (claim7_theorem sampleStore 7 .post (some 1) none sampleFields 5 3 (by decide)).2⟩

/-- Claim C8: the notes view sets `notes = tx` and refreshes `reviewed_at` on
the targeted application, and changes nothing else — the pets table is
untouched, the updated application keeps its status, and every other
application is still in the table unchanged. -/
theorem claim8_theorem (s : Store) (i : Nat) (tx : String) (t : Nat)
    (a : AdoptionApplication) (ha : findApplication s.applications i = some a) :
    (admin_update_application_notes s .post i tx t).1.pets = s.pets ∧
    findApplication (admin_update_application_notes s .post i tx t).1.applications i =
      some { a with notes := tx, reviewed_at := some t } ∧
    ({ a with notes := tx, reviewed_at := some t } : AdoptionApplication).status = a.status ∧
    (∀ b ∈ s.applications, b.id ≠ i →
      b ∈ (admin_update_application_notes s .post i tx t).1.applications) := by
  rw [notes_view_post s i tx t a ha]
  refine ⟨rfl, ?_, rfl, ?_⟩
  · show findApplication
      (updApp i (fun b => { b with notes := tx, reviewed_at := some t }) s.applications) i = _
    rw [findApplication_updApp i (fun b => { b with notes := tx, reviewed_at := some t })
      (fun b => rfl) s.applications, ha]
    rfl
  · intro b hb hbid
    have := updFn_mem i (fun c => { c with notes := tx, reviewed_at := some t }) s.applications b hb
    simpa [hbid] using this

/-- Claim C8, witness: writing notes on application 1 of the sample store. -/
theorem claim8_witness :
    findApplication sampleStore.applications 1 = some appOne ∧
    (admin_update_application_notes sampleStore .post 1 "call back" 6).1.pets =
      sampleStore.pets ∧
    findApplication (admin_update_application_notes sampleStore .post 1 "call back" 6).1.applications 1 =
      some { appOne with notes := "call back", reviewed_at := some 6 } :=
  ⟨by decide,
    (claim8_theorem sampleStore 1 "call back" 6 appOne (by decide)).1,
    (claim8_theorem sampleStore 1 "call back" 6 appOne (by decide)).2.1⟩

/-- Claim C9: every application a successful submission creates starts with
status `pending`, `submitted_at` equal to the creation time, and a null
`reviewed_at`. -/
theorem claim9_theorem (s : Store) (uid : Nat) (m : Method) (pid ppid : Option Nat)
    (f : ApplicantFields) (t : Nat) (i : Nat)
    (h : (adoption_application s (some uid) m pid ppid f t).2 = .created i) :
    ∀ a ∈ (adoption_application s (some uid) m pid ppid f t).1.applications,
      a ∉ s.applications →
        a.status = "pending" ∧ a.submitted_at = t ∧ a.reviewed_at = none := by
  rcases submit_created_shape s (some uid) m pid ppid f t i h with ⟨-, petId, h2⟩
  rw [h2]
  intro a ha hnot
  rcases List.mem_append.mp ha with h3 | h3
  · exact absurd h3 hnot
  · rcases List.mem_singleton.mp h3 with rfl
    exact ⟨rfl, rfl, rfl⟩

/-- Claim C9, witness: the application created by a successful submission for
Luna in the sample store is pending, stamped with the submission time, never
reviewed. -/
theorem claim9_witness :
    (adoption_application sampleStore (some 7) .post (some 1) none sampleFields 5).2 =
      .created 3 ∧
    ∀ a ∈ (adoption_application sampleStore (some 7) .post (some 1) none sampleFields 5).1.applications,
      a ∉ sampleStore.applications →
        a.status = "pending" ∧ a.submitted_at = 5 ∧ a.reviewed_at = none :=
  ⟨by decide, claim9_theorem sampleStore 7 .post (some 1) none sampleFields 5 3 (by decide)⟩

end PawHaven
